import Mathlib

set_option autoImplicit false

/-!
Verification of the merge/normalize/scoring core of the company-support
pipeline (`src/merge_normalize.py`).

The Python functions `extract_all_company_info`, `normalize_company_name`,
`calculate_company_score`, `merge_company_info`, `create_master_dataset` and
`enhance_and_score_companies` are shallowly embedded below.  Conventions:

* A raw pandas row is a finite association list from column name to a
  non-null cell value (`RVal`); a missing column and a NaN cell are both
  modelled as an absent key, matching the `col in row and pd.notna(row[col])`
  guards used throughout the source.
* Python dictionaries with a fixed key set (a fragment, its `support_info`,
  `channels`, `metadata`) are structures whose fields are `Option`-valued;
  `none` models an absent key, so Python's `in`/`.get` tests translate
  directly and an *empty but present* dict (`some` of the all-`none` record)
  stays distinct from an absent one, exactly as in Python.
* `list(set(existing + new))` iterates a Python string set, whose order
  depends on the per-process hash seed; it is modelled by an explicit
  ordering oracle `ord : List String → List String`, constrained by
  `IsSetOrder` (the output is duplicate-free and has the same members).
* `datetime.now().isoformat()` is an opaque `now : String` parameter.
* `str.upper()` is modelled on the alphabets this data set uses (ASCII and
  Cyrillic) by an explicit case table; `str.strip` / `re.sub(r"\s+", " ")`
  use the ASCII whitespace class.
* `int(float(s))` is modelled for decimal literals (optional sign, digits,
  optional fractional part, truncation toward zero); any other string is a
  parse failure, matching the `except` fallback to the raw string.
-/

/-- ASCII whitespace class used by `str.strip` and by `\s` on this data. -/
def isPyWs (c : Char) : Bool :=
  c = ' ' || c = '\t' || c = '\n' || c = '\r' || c = Char.ofNat 11 || c = Char.ofNat 12

/-- The punctuation characters removed by `normalize_company_name`
(the regex class `[«»"'()\[\]!?.,;:]`, written here via code points). -/
def punctChars : List Char :=
  [Char.ofNat 171, Char.ofNat 187, Char.ofNat 34, Char.ofNat 39, Char.ofNat 40,
   Char.ofNat 41, Char.ofNat 91, Char.ofNat 93, Char.ofNat 33, Char.ofNat 63,
   Char.ofNat 46, Char.ofNat 44, Char.ofNat 59, Char.ofNat 58]

/-- Membership in the punctuation class removed by name normalization. -/
def isPunct (c : Char) : Bool := punctChars.contains c

/-- Case table for `str.upper()` restricted to the alphabets appearing in the
data (ASCII letters and Cyrillic а–я, ё). -/
def upperPairs : List (Char × Char) :=
  [('a', 'A'), ('b', 'B'), ('c', 'C'), ('d', 'D'), ('e', 'E'), ('f', 'F'),
   ('g', 'G'), ('h', 'H'), ('i', 'I'), ('j', 'J'), ('k', 'K'), ('l', 'L'),
   ('m', 'M'), ('n', 'N'), ('o', 'O'), ('p', 'P'), ('q', 'Q'), ('r', 'R'),
   ('s', 'S'), ('t', 'T'), ('u', 'U'), ('v', 'V'), ('w', 'W'), ('x', 'X'),
   ('y', 'Y'), ('z', 'Z'),
   ('а', 'А'), ('б', 'Б'), ('в', 'В'), ('г', 'Г'), ('д', 'Д'), ('е', 'Е'),
   ('ж', 'Ж'), ('з', 'З'), ('и', 'И'), ('й', 'Й'), ('к', 'К'), ('л', 'Л'),
   ('м', 'М'), ('н', 'Н'), ('о', 'О'), ('п', 'П'), ('р', 'Р'), ('с', 'С'),
   ('т', 'Т'), ('у', 'У'), ('ф', 'Ф'), ('х', 'Х'), ('ц', 'Ц'), ('ч', 'Ч'),
   ('ш', 'Ш'), ('щ', 'Щ'), ('ъ', 'Ъ'), ('ы', 'Ы'), ('ь', 'Ь'), ('э', 'Э'),
   ('ю', 'Ю'), ('я', 'Я'), ('ё', 'Ё')]

/-- One character of `str.upper()` (identity outside the modelled alphabets). -/
def pyUpperChar (c : Char) : Char := (upperPairs.lookup c).getD c

/-- `str.strip()` on a character list: drop leading and trailing whitespace. -/
def stripChars (l : List Char) : List Char :=
  ((l.dropWhile isPyWs).reverse.dropWhile isPyWs).reverse

/-- Worker for `re.sub(r"\s+", " ", s)`: the flag records whether the
previous character was part of a whitespace run already replaced. -/
def collapseAux : Bool → List Char → List Char
  | _, [] => []
  | prevWs, c :: t =>
    if isPyWs c then
      if prevWs then collapseAux true t else ' ' :: collapseAux true t
    else c :: collapseAux false t

/-- `re.sub(r"\s+", " ", s)`: each whitespace run becomes a single space. -/
def collapseWs (l : List Char) : List Char := collapseAux false l

/-- The punctuation-removal substitution of `normalize_company_name`. -/
def removePunct (l : List Char) : List Char := l.filter (fun c => !(isPunct c))

/-- Character-level body of `normalize_company_name`:
strip, collapse whitespace runs, upper-case, remove punctuation, strip. -/
def normChars (l : List Char) : List Char :=
  stripChars (removePunct ((collapseWs (stripChars l)).map pyUpperChar))

/-- `normalize_company_name` from `merge_normalize.py` (lines 174–190).
The `if not name or pd.isna(name)` guard returns `""`; a null input is not
representable for a Lean `String` and behaves like `""` in the source. -/
def normalize_company_name (name : String) : String :=
  if name = "" then "" else String.mk (normChars name.data)

/-- String-level whitespace-run collapsing (line 182 of the source),
used to state what a second normalization pass does. -/
def collapseWsStr (s : String) : String := String.mk (collapseWs s.data)

/-- `str.strip()` at string level. -/
def pyStrip (s : String) : String := String.mk (stripChars s.data)

/-- A non-null cell value of a raw row. -/
inductive RVal where
  | rStr (s : String)
  | rInt (n : Int)
  | rBool (b : Bool)
deriving DecidableEq, Repr

/-- Python `str(...)` on a cell value. -/
def pyStr : RVal → String
  | .rStr s => s
  | .rInt n => toString n
  | .rBool b => if b then "True" else "False"

/-- Python truthiness (`bool(...)`) of a cell value. -/
def pyTruthy : RVal → Bool
  | .rStr s => !s.isEmpty
  | .rInt n => n != 0
  | .rBool b => b

/-- Numeric value of a digit run. -/
def digitsVal (l : List Char) : Nat := l.foldl (fun a c => a * 10 + (c.toNat - 48)) 0

/-- All characters are ASCII digits. -/
def allDigits (l : List Char) : Bool := l.all (fun c => '0' ≤ c && c ≤ '9')

/-- `int(float(s))` for decimal literals: optional sign, optional integer
part, optional fractional part (truncated toward zero); `none` models the
`ValueError` branch. -/
def parsePyFloatTrunc (s : String) : Option Int :=
  let t := stripChars s.data
  let signed : Bool × List Char :=
    match t with
    | '-' :: r => (true, r)
    | '+' :: r => (false, r)
    | r => (false, r)
  let ip := signed.2.takeWhile (fun c => c ≠ '.')
  let rest := signed.2.dropWhile (fun c => c ≠ '.')
  let ok : Bool :=
    match rest with
    | [] => allDigits ip && !ip.isEmpty
    | _ :: fp => allDigits ip && allDigits fp && !(ip.isEmpty && fp.isEmpty)
  if ok then
    let v : Int := Int.ofNat (digitsVal ip)
    some (if signed.1 then -v else v)
  else none

/-- `int(float(x))` on a cell value (`bool` is an `int` in Python). -/
def pyIntOfFloat : RVal → Option Int
  | .rInt n => some n
  | .rBool b => some (if b then 1 else 0)
  | .rStr s => parsePyFloatTrunc s

/-- A support count as stored in a fragment: an integer when the source cell
was numeric-coercible, else the raw stripped string. -/
inductive SVal where
  | sInt (n : Int)
  | sStr (s : String)
deriving DecidableEq, Repr

/-- Python truthiness of a stored count value. -/
def svalTruthy : SVal → Bool
  | .sInt n => n != 0
  | .sStr s => !s.isEmpty

/-- `isinstance(v, (int, float))` for a stored count value. -/
def svalIsNum : SVal → Bool
  | .sInt _ => true
  | .sStr _ => false

/-- Python `str(...)` of a stored count value (used in `description`). -/
def svalRepr : SVal → String
  | .sInt n => toString n
  | .sStr s => s

/-- `max` of two numeric stored values (only reached when both are numeric). -/
def svalMax : SVal → SVal → SVal
  | .sInt a, .sInt b => .sInt (max a b)
  | .sInt a, .sStr _ => .sInt a
  | .sStr _, v => v

/-- A raw row: column name to non-null value (missing or NaN = absent key). -/
abbrev Row := List (String × RVal)

/-- First value bound to a key in an association list. -/
def lookupA {α : Type} (k : String) : List (String × α) → Option α
  | [] => none
  | p :: rest => if p.1 = k then some p.2 else lookupA k rest

/-- The support-channel dictionary: each recognized channel key is either
absent (`none`) or stores the boolean parsed from the corresponding column.
`c24_7` is the `24_7` key. -/
structure Channels where
  email : Option Bool
  contact_form : Option Bool
  online_chat : Option Bool
  messengers : Option Bool
  support_section : Option Bool
  kb_faq : Option Bool
  c24_7 : Option Bool
deriving DecidableEq, Repr

/-- The channels dict with no keys (`{}`). -/
def emptyChannels : Channels := ⟨none, none, none, none, none, none, none⟩

/-- Python truthiness of the channels dict (`if channels:`): some key present. -/
def chNonempty (ch : Channels) : Bool :=
  ch.email.isSome || ch.contact_form.isSome || ch.online_chat.isSome ||
  ch.messengers.isSome || ch.support_section.isSome || ch.kb_faq.isSome ||
  ch.c24_7.isSome

/-- `sum(1 for v in channels.values() if v)`. -/
def trueCount (ch : Channels) : Nat :=
  (if ch.email = some true then 1 else 0) +
  (if ch.contact_form = some true then 1 else 0) +
  (if ch.online_chat = some true then 1 else 0) +
  (if ch.messengers = some true then 1 else 0) +
  (if ch.support_section = some true then 1 else 0) +
  (if ch.kb_faq = some true then 1 else 0) +
  (if ch.c24_7 = some true then 1 else 0)

/-- The `support_info` dictionary of a fragment. -/
structure SupportInfo where
  team_size : Option SVal
  evidence : Option String
  evidence_url : Option String
  channels : Option Channels
  chat_vendor : Option String
  support_vacancies : Option SVal
  vacancy_details : Option String
  total_vacancies : Option SVal
deriving DecidableEq, Repr

/-- The support dict with no keys (`{}`). -/
def emptySupportInfo : SupportInfo :=
  ⟨none, none, none, none, none, none, none, none⟩

/-- Python truthiness of a support dict (`if support_info:`): some key present. -/
def siNonempty (si : SupportInfo) : Bool :=
  si.team_size.isSome || si.evidence.isSome || si.evidence_url.isSome ||
  si.channels.isSome || si.chat_vendor.isSome || si.support_vacancies.isSome ||
  si.vacancy_details.isSome || si.total_vacancies.isSome

/-- The `metadata` dictionary of a fragment. -/
structure Metadata where
  parsing_success : Option Bool
  parsing_method : Option String
  analysis_success : Option Bool
  data_source : Option String
  page_title : Option String
deriving DecidableEq, Repr

/-- The metadata dict with no keys (`{}`). -/
def emptyMetadata : Metadata := ⟨none, none, none, none, none⟩

/-- Python truthiness of a metadata dict: some key present. -/
def mdNonempty (m : Metadata) : Bool :=
  m.parsing_success.isSome || m.parsing_method.isSome ||
  m.analysis_success.isSome || m.data_source.isSome || m.page_title.isSome

/-- An information fragment: the per-company dictionary built by
`extract_all_company_info` and grown by `merge_company_info`. -/
structure Fragment where
  source : Option String
  name : Option String
  sites : List String
  emails : List String
  industry : Option String
  inn : Option String
  support_info : Option SupportInfo
  metadata : Option Metadata
  sources : Option (List String)
  normalized_name : Option String
  primary_site : Option String
  primary_email : Option String
  last_updated : Option String
deriving DecidableEq, Repr

/-- The empty fragment (`{}`). -/
def blankFragment : Fragment :=
  ⟨none, none, [], [], none, none, none, none, none, none, none, none, none⟩

/-- Ordered name candidate columns of the extractor. -/
def nameCandidates : List String := ["name", "company_name", "employer", "hh_employer_name"]

/-- Ordered site candidate columns of the extractor. -/
def siteCandidates : List String :=
  ["site", "site_url", "website", "final_url", "url", "hh_employer_url", "support_url", "kb_url"]

/-- Ordered email candidate columns of the extractor. -/
def emailCandidates : List String := ["support_email", "email", "e-mail", "contact_email"]

/-- Ordered team-size candidate columns of the extractor. -/
def sizeCandidates : List String := ["support_team_size_min", "support_team_size", "team_size"]

/-- Name extraction: first present candidate column, `str(...).strip()`. -/
def extractName (row : Row) : Option String :=
  (nameCandidates.findSome? (fun col => lookupA col row)).map (fun v => pyStrip (pyStr v))

/-- Site extraction: stripped values of the candidate columns, skipping
empty strings and duplicates, in candidate order. -/
def collectSites (row : Row) : List String :=
  siteCandidates.foldl (fun sites col =>
    match lookupA col row with
    | some v =>
      let site := pyStrip (pyStr v)
      if site ≠ "" ∧ site ∉ sites then sites ++ [site] else sites
    | none => sites) []

/-- Email extraction: stripped values containing `@`, deduplicated. -/
def collectEmails (row : Row) : List String :=
  emailCandidates.foldl (fun emails col =>
    match lookupA col row with
    | some v =>
      let e := pyStrip (pyStr v)
      if e.contains '@' ∧ e ∉ emails then emails ++ [e] else emails
    | none => emails) []

/-- `int(float(...))` with fallback to `str(...).strip()` on parse failure. -/
def svalOfCell (v : RVal) : SVal :=
  match pyIntOfFloat v with
  | some n => .sInt n
  | none => .sStr (pyStrip (pyStr v))

/-- Team-size extraction: first present size column, parsed or raw. -/
def extractTeamSize (row : Row) : Option SVal :=
  (sizeCandidates.findSome? (fun col => lookupA col row)).map svalOfCell

/-- A single optional string column, `str(...).strip()`. -/
def strCol (row : Row) (col : String) : Option String :=
  (lookupA col row).map (fun v => pyStrip (pyStr v))

/-- A single optional boolean column, `bool(...)`. -/
def boolCol (row : Row) (col : String) : Option Bool :=
  (lookupA col row).map pyTruthy

/-- Channel extraction: `bool(row[col])` for each recognized channel column. -/
def extractChannels (row : Row) : Channels :=
  { email := boolCol row "has_support_email"
    contact_form := boolCol row "has_contact_form"
    online_chat := boolCol row "has_online_chat"
    messengers := boolCol row "has_messengers"
    support_section := boolCol row "has_support_section"
    kb_faq := boolCol row "has_kb_or_faq"
    c24_7 := boolCol row "mentions_24_7" }

/-- Support-info extraction; the dict is attached only when non-empty
(`if channels:` and `if support_info:` guards of the source). -/
def extractSupportInfo (row : Row) : Option SupportInfo :=
  let ch := extractChannels row
  let si : SupportInfo :=
    { team_size := extractTeamSize row
      evidence := ["support_evidence", "evidence_type"].findSome? (fun c => strCol row c)
      evidence_url := strCol row "evidence_url"
      channels := if chNonempty ch then some ch else none
      chat_vendor := strCol row "chat_vendor"
      support_vacancies := (lookupA "support_vacancies_found" row).map svalOfCell
      vacancy_details := strCol row "vacancy_details"
      total_vacancies := (lookupA "vacancies_count" row).map svalOfCell }
  if siNonempty si then some si else none

/-- Metadata extraction; attached only when non-empty. -/
def extractMetadata (row : Row) : Option Metadata :=
  let m : Metadata :=
    { parsing_success := boolCol row "parsing_success"
      parsing_method := strCol row "parsing_method"
      analysis_success := boolCol row "analysis_success"
      data_source := strCol row "source"
      page_title := strCol row "page_title" }
  if mdNonempty m then some m else none

/-- `extract_all_company_info` from `merge_normalize.py` (lines 48–171). -/
def extract_all_company_info (row : Row) (source : String) : Fragment :=
  { source := some source
    name := extractName row
    sites := collectSites row
    emails := collectEmails row
    industry := strCol row "industry"
    inn := strCol row "inn"
    support_info := extractSupportInfo row
    metadata := extractMetadata row
    sources := none
    normalized_name := none
    primary_site := none
    primary_email := none
    last_updated := none }

/-- One numeric support field of the merge (lines 285–299): incoming absent
keeps existing; existing absent takes incoming; both numeric takes the max;
otherwise the incoming value overwrites.  The `except` branch of the source
is unreachable (`max` on numbers does not raise). -/
def mergeNumField (e n : Option SVal) : Option SVal :=
  match n with
  | none => e
  | some nv =>
    match e with
    | none => some nv
    | some ev => if svalIsNum nv && svalIsNum ev then some (svalMax ev nv) else some nv

/-- One channel flag of the merge (lines 305–307): a missing or falsy
existing flag is overwritten by the incoming value. -/
def mergeChanField (e n : Option Bool) : Option Bool :=
  match n with
  | none => e
  | some v =>
    match e with
    | none => some v
    | some ev => if ev then some ev else some v

/-- Channel-dict merge (lines 302–307): only runs when the incoming support
dict has a `channels` key; an absent existing dict starts from `{}`. -/
def mergeChannelsOpt (e n : Option Channels) : Option Channels :=
  match n with
  | none => e
  | some nc =>
    let ec := e.getD emptyChannels
    some { email := mergeChanField ec.email nc.email
           contact_form := mergeChanField ec.contact_form nc.contact_form
           online_chat := mergeChanField ec.online_chat nc.online_chat
           messengers := mergeChanField ec.messengers nc.messengers
           support_section := mergeChanField ec.support_section nc.support_section
           kb_faq := mergeChanField ec.kb_faq nc.kb_faq
           c24_7 := mergeChanField ec.c24_7 nc.c24_7 }

/-- One free-text field of the merge (lines 310–312): the incoming value is
taken only when truthy and the existing value is absent or empty. -/
def mergeTextField (e n : Option String) : Option String :=
  match n with
  | none => e
  | some s => if s ≠ "" ∧ (e.getD "") = "" then some s else e

/-- Support-dict merge body (lines 282–314), starting from a copy of the
existing dict. -/
def mergeSupportInfo (e n : SupportInfo) : SupportInfo :=
  { team_size := mergeNumField e.team_size n.team_size
    evidence := mergeTextField e.evidence n.evidence
    evidence_url := mergeTextField e.evidence_url n.evidence_url
    channels := mergeChannelsOpt e.channels n.channels
    chat_vendor := mergeTextField e.chat_vendor n.chat_vendor
    support_vacancies := mergeNumField e.support_vacancies n.support_vacancies
    vacancy_details := mergeTextField e.vacancy_details n.vacancy_details
    total_vacancies := mergeNumField e.total_vacancies n.total_vacancies }

/-- Metadata merge (lines 317–325): per key, first present value wins. -/
def mergeMetadata (e n : Metadata) : Metadata :=
  { parsing_success := e.parsing_success.or n.parsing_success
    parsing_method := e.parsing_method.or n.parsing_method
    analysis_success := e.analysis_success.or n.analysis_success
    data_source := e.data_source.or n.data_source
    page_title := e.page_title.or n.page_title }

/-- Sources update (lines 327–332): append the incoming fragment's `source`
when truthy and not already listed. -/
def mergeSources (srcs : List String) (s : Option String) : List String :=
  match s with
  | some v => if v ≠ "" ∧ v ∉ srcs then srcs ++ [v] else srcs
  | none => srcs

/-- `merge_company_info` from `merge_normalize.py` (lines 249–337).
`ord` is the iteration-order oracle for `list(set(...))` and `now` the value
of `datetime.now().isoformat()`.  The successive dict updates of the source
are written as a single record: each field carries the line-for-line policy
of its assignment. -/
def merge_company_info (ord : List String → List String) (now : String)
    (existing incoming : Fragment) : Fragment :=
  let all_sites := ord (existing.sites ++ incoming.sites)
  let all_emails := ord (existing.emails ++ incoming.emails)
  let eS := existing.support_info.getD emptySupportInfo
  let nS := incoming.support_info.getD emptySupportInfo
  let eM := existing.metadata.getD emptyMetadata
  let nM := incoming.metadata.getD emptyMetadata
  { source := existing.source
    name := if (existing.name.getD "") = "" ∧ (incoming.name.getD "") ≠ ""
            then incoming.name else existing.name
    sites := if all_sites ≠ [] then all_sites else existing.sites
    primary_site := if all_sites ≠ [] then all_sites.head? else existing.primary_site
    emails := if all_emails ≠ [] then all_emails else existing.emails
    primary_email := if all_emails ≠ [] then all_emails.head? else existing.primary_email
    industry := if (incoming.industry.getD "") ≠ "" ∧ (existing.industry.getD "") = ""
                then incoming.industry else existing.industry
    inn := if (incoming.inn.getD "") ≠ "" ∧ (existing.inn.getD "") = ""
           then incoming.inn else existing.inn
    support_info := if siNonempty eS || siNonempty nS
                    then some (mergeSupportInfo eS nS) else existing.support_info
    metadata := if mdNonempty eM || mdNonempty nM
                then some (mergeMetadata eM nM) else existing.metadata
    sources := some (mergeSources (existing.sources.getD []) incoming.source)
    normalized_name := existing.normalized_name
    last_updated := some now }

/-- The resolution map: normalized name to fragment, in insertion order. -/
abbrev Master := List (String × Fragment)

/-- In-place value update at a key (dict assignment to an existing key). -/
def assocUpdate (m : Master) (k : String) (g : Fragment → Fragment) : Master :=
  m.map (fun p => if p.1 = k then (p.1, g p.2) else p)

/-- Loop body of `create_master_dataset` (lines 350–369): extract, skip
fragments with a falsy name, group by normalized name, merge or insert. -/
def processRow (ord : List String → List String) (now : String)
    (m : Master) (source : String) (row : Row) : Master :=
  let info := extract_all_company_info row source
  if (info.name.getD "") = "" then m
  else
    let k := normalize_company_name (info.name.getD "")
    if (lookupA k m).isSome then
      assocUpdate m k (fun ex => merge_company_info ord now ex info)
    else
      m ++ [(k, { info with normalized_name := some k })]

/-- `create_master_dataset` from `merge_normalize.py` (lines 340–372):
fold all rows of all source tables, in order, into the resolution map. -/
def create_master_dataset (ord : List String → List String) (now : String)
    (srcs : List (String × List Row)) : Master :=
  srcs.foldl (fun m p => p.2.foldl (fun m2 r => processRow ord now m2 p.1 r) m) []

/-- `calculate_company_score` from `merge_normalize.py` (lines 213–246). -/
def calculate_company_score (c : Fragment) : Nat :=
  let base :=
    (if (c.name.getD "") ≠ "" then 10 else 0) +
    (if (c.inn.getD "") ≠ "" then 10 else 0) +
    (if (c.industry.getD "") ≠ "" then 10 else 0)
  let contact :=
    (if (c.primary_site.getD "") ≠ "" then 15 else 0) +
    (if (c.primary_email.getD "") ≠ "" then 15 else 0)
  let sup :=
    match c.support_info with
    | none => 0
    | some si =>
      if siNonempty si then
        10 + (if (si.team_size.map svalTruthy).getD false then 10 else 0) +
        (if (si.evidence.getD "") ≠ "" then 10 else 0) +
        (match si.channels with
         | some ch => if chNonempty ch then min (trueCount ch * 3) 10 else 0
         | none => 0)
      else 0
  min (base + contact + sup) 100

/-- A company record: the merged fragment plus the flattened summary fields
added by `enhance_and_score_companies`. -/
structure CompanyRecord where
  frag : Fragment
  company_id : String
  data_quality_score : Nat
  has_support_team : Bool
  support_team_size : SVal
  support_channels_count : Nat
  has_24_7_support : Bool
  support_vacancies : SVal
  total_vacancies : SVal
  data_sources : String
  description : String
deriving DecidableEq, Repr

/-- Zero-padded sequential id digits (`f"C{n:04d}"` without the `C`). -/
def pad4 (n : Nat) : String :=
  let s := toString n
  String.mk (List.replicate (4 - s.length) '0') ++ s

/-- The `description` synopsis (lines 408–416), built from the enriched
team-size value and channel count. -/
def mkDescription (f : Fragment) (si : SupportInfo) (ch : Channels) : String :=
  let sts := si.team_size.getD (.sInt 0)
  let parts :=
    (if (f.industry.getD "") ≠ "" then ["Отрасль: " ++ (f.industry.getD "")] else []) ++
    (if svalTruthy sts then ["Размер команды поддержки: " ++ svalRepr sts] else []) ++
    (if trueCount ch > 0 then ["Каналы поддержки: " ++ toString (trueCount ch)] else [])
  if parts ≠ [] then String.intercalate " | " parts else "Информация отсутствует"

/-- Enrichment of one fragment at position `i` (loop body of
`enhance_and_score_companies`, lines 381–418). -/
def mkRecord (i : Nat) (f : Fragment) : CompanyRecord :=
  let si := f.support_info.getD emptySupportInfo
  let ch := si.channels.getD emptyChannels
  { frag := f
    company_id := "C" ++ pad4 (i + 1)
    data_quality_score := calculate_company_score f
    has_support_team := (si.team_size.map svalTruthy).getD false
    support_team_size := si.team_size.getD (.sInt 0)
    support_channels_count := trueCount ch
    has_24_7_support := ch.c24_7.getD false
    support_vacancies := si.support_vacancies.getD (.sInt 0)
    total_vacancies := si.total_vacancies.getD (.sInt 0)
    data_sources := String.intercalate ", " (f.sources.getD [])
    description := mkDescription f si ch }

/-- Enrich the resolution map in insertion order, numbering from `i`. -/
def enhanceFrom (i : Nat) : Master → List CompanyRecord
  | [] => []
  | (_, f) :: rest => mkRecord i f :: enhanceFrom (i + 1) rest

/-- Stable descending insertion by `data_quality_score` (the sort of
line 421; Python's `list.sort` is stable). -/
def insDesc (r : CompanyRecord) : List CompanyRecord → List CompanyRecord
  | [] => [r]
  | x :: xs =>
    if r.data_quality_score ≥ x.data_quality_score then r :: x :: xs
    else x :: insDesc r xs

/-- Stable sort by `data_quality_score`, descending. -/
def sortByScoreDesc (l : List CompanyRecord) : List CompanyRecord :=
  l.foldr insDesc []

/-- `enhance_and_score_companies` from `merge_normalize.py` (lines 375–424). -/
def enhance_and_score_companies (m : Master) : List CompanyRecord :=
  sortByScoreDesc (enhanceFrom 0 m)

/-- The whole core pipeline of `main`: resolution then scoring/enrichment. -/
def run_pipeline (ord : List String → List String) (now : String)
    (srcs : List (String × List Row)) : List CompanyRecord :=
  enhance_and_score_companies (create_master_dataset ord now srcs)

/-- Validity of an iteration-order oracle for a Python string set built from
a list: the result is duplicate-free and has exactly the list's members. -/
def IsSetOrder (ord : List String → List String) : Prop :=
  ∀ l : List String, (ord l).Nodup ∧ ∀ x, x ∈ ord l ↔ x ∈ l

/-- The stored team-size value of a fragment (via the `support_info` dict,
treating an absent dict as `{}`). -/
def tsVal (f : Fragment) : Option SVal :=
  (f.support_info.getD emptySupportInfo).team_size

/-- The stored support-vacancies value of a fragment. -/
def svVal (f : Fragment) : Option SVal :=
  (f.support_info.getD emptySupportInfo).support_vacancies

/-- The stored total-vacancies value of a fragment. -/
def tvVal (f : Fragment) : Option SVal :=
  (f.support_info.getD emptySupportInfo).total_vacancies

/-- The channel flags of a fragment (absent dicts read as `{}`). -/
def chanVal (f : Fragment) : Channels :=
  ((f.support_info.getD emptySupportInfo).channels).getD emptyChannels

/-- Conflict-resolution contract for one numeric support field, as stated in
the (amended) spec: both numeric takes the max, existing absent takes the
incoming value, incoming absent keeps the existing value, and in every other
both-present case the incoming value overwrites. -/
def NumMergeOk (ev nv mv : Option SVal) : Prop :=
  (∀ a b : Int, ev = some (.sInt a) → nv = some (.sInt b) → mv = some (.sInt (max a b))) ∧
  (ev = none → nv ≠ none → mv = nv) ∧
  (nv = none → mv = ev) ∧
  (∀ v, ev ≠ none → nv = some v →
    (svalIsNum v = false ∨ (∀ a : Int, ev ≠ some (.sInt a))) → mv = some v)

/-- Order-independence precondition for one numeric support field: the two
fragments' values are both numeric, or at most one of them is present. -/
def NumCompat (x y : Option SVal) : Prop :=
  (∃ a b : Int, x = some (.sInt a) ∧ y = some (.sInt b)) ∨ x = none ∨ y = none

/-- Erase the only wall-clock field of a fragment. -/
def fragScrub (f : Fragment) : Fragment := { f with last_updated := none }

/-- Erase the only wall-clock field of a company record. -/
def scrubRecord (r : CompanyRecord) : CompanyRecord := { r with frag := fragScrub r.frag }

/-- Rewrite a fragment's timestamp, keeping its presence. -/
def stampF (now : String) (f : Fragment) : Fragment :=
  { f with last_updated := f.last_updated.map (fun _ => now) }

/-- Rewrite a record's timestamp, keeping its presence. -/
def stampRec (now : String) (r : CompanyRecord) : CompanyRecord :=
  { r with frag := stampF now r.frag }

/-- Rewrite each fragment's timestamp in a resolution map. -/
def stampMaster (now : String) (m : Master) : Master :=
  m.map (fun p => (p.1, stampF now p.2))

/-- The grouping key a row contributes, `none` when its extracted name is
absent or empty so the row is skipped. -/
def extractKey (source : String) (row : Row) : Option String :=
  let info := extract_all_company_info row source
  if (info.name.getD "") = "" then none
  else some (normalize_company_name (info.name.getD ""))

/-- All grouping keys contributed by the source tables, in processing order
(`none` entries are the skipped rows). -/
def allKeys (srcs : List (String × List Row)) : List (Option String) :=
  srcs.flatMap (fun p => p.2.map (extractKey p.1))

/-- Append a key if unseen (key behavior of one `processRow` step). -/
def addKey (ks : List String) (k : String) : List String :=
  if k ∈ ks then ks else ks ++ [k]

/-- Fold the optional keys of all rows over `addKey`. -/
def keyFold (ks : List String) (l : List (Option String)) : List String :=
  l.foldl (fun a o => match o with | some k => addKey a k | none => a) ks

/-- The list head is not whitespace. -/
def noLead : List Char → Bool
  | [] => true
  | c :: _ => !isPyWs c

/-- The list's last character is not whitespace. -/
def noTrail : List Char → Bool
  | [] => true
  | [c] => !isPyWs c
  | _ :: c :: t => noTrail (c :: t)

/-- No two adjacent whitespace characters. -/
def oneSpaced : List Char → Bool
  | [] => true
  | [_] => true
  | a :: b :: t => !(isPyWs a && isPyWs b) && oneSpaced (b :: t)

/-- A valid set-order oracle (keeps the last occurrence of each string). -/
def dedupOrd (l : List String) : List String := l.dedup

/-- Another valid set-order oracle (keeps the first occurrence, read from a
reversed list), modelling a different hash seed. -/
def dedupRevOrd (l : List String) : List String := l.reverse.dedup

/-- A fragment whose support dict holds the numeric team size 12. -/
def fragTS12 : Fragment :=
  { blankFragment with support_info := some { emptySupportInfo with team_size := some (.sInt 12) } }

/-- A fragment whose support dict holds the non-numeric team size "many". -/
def fragTSmany : Fragment :=
  { blankFragment with support_info := some { emptySupportInfo with team_size := some (.sStr "many") } }

/-- The first row of the spec's merge scenario, from source "site". -/
def rowSite : Row :=
  [("name", .rStr "ООО Ромашка"), ("support_team_size_min", .rInt 12), ("has_online_chat", .rBool true)]

/-- The second row of the spec's merge scenario, from source "jobs". -/
def rowJobs : Row :=
  [("name", .rStr "Ромашка"), ("support_vacancies_found", .rInt 3), ("has_support_email", .rBool true)]

/-- The scenario's two source tables in processing order. -/
def scenarioSrcs : List (String × List Row) := [("site", [rowSite]), ("jobs", [rowJobs])]

/-- Two rows for the same company carrying two different sites. -/
def twoSiteSrcs : List (String × List Row) :=
  [("seed", [[("name", .rStr "Acme"), ("site", .rStr "a.com")],
             [("name", .rStr "Acme"), ("site", .rStr "b.com")]])]

/-- A source table with a blank-name row and two rows normalizing alike. -/
def mixedSrcs : List (String × List Row) :=
  [("seed", [[("name", .rStr " ")],
             [("name", .rStr "Acme Corp"), ("inn", .rStr "1")],
             [("company_name", .rStr "acme  corp")]])]

/-- A row whose team-size column is a non-numeric string. -/
def rowWordSize : Row :=
  [("name", .rStr "X"), ("support_team_size_min", .rStr "five")]

/-- One source table containing only `rowWordSize`. -/
def wordSizeSrcs : List (String × List Row) := [("jobs", [rowWordSize])]

/-- A fragment carrying a single site. -/
def fragSiteA : Fragment := { blankFragment with sites := ["a.com"] }

/-- A row whose channel columns all hold the strings "false" or "0". -/
def rowFalseChans : Row :=
  [("has_support_email", .rStr "false"), ("has_contact_form", .rStr "0"),
   ("has_online_chat", .rStr "no"), ("has_messengers", .rStr "False"),
   ("has_support_section", .rStr "nope"), ("has_kb_or_faq", .rStr "none"),
   ("mentions_24_7", .rStr "false")]

theorem isSetOrder_dedupOrd : IsSetOrder dedupOrd :=
  fun l => ⟨List.nodup_dedup l, fun _ => List.mem_dedup⟩

theorem isSetOrder_dedupRevOrd : IsSetOrder dedupRevOrd :=
  fun l => ⟨List.nodup_dedup _, fun x => by simp [dedupRevOrd, List.mem_dedup]⟩

theorem ts_none_of_empty (si : SupportInfo) (h : siNonempty si = false) :
    si.team_size = none := by
  cases hts : si.team_size with
  | none => rfl
  | some v => simp [siNonempty, hts] at h

theorem sv_none_of_empty (si : SupportInfo) (h : siNonempty si = false) :
    si.support_vacancies = none := by
  cases hts : si.support_vacancies with
  | none => rfl
  | some v => simp [siNonempty, hts] at h

theorem tv_none_of_empty (si : SupportInfo) (h : siNonempty si = false) :
    si.total_vacancies = none := by
  cases hts : si.total_vacancies with
  | none => rfl
  | some v => simp [siNonempty, hts] at h

theorem ch_none_of_empty (si : SupportInfo) (h : siNonempty si = false) :
    si.channels = none := by
  cases hts : si.channels with
  | none => rfl
  | some v => simp [siNonempty, hts] at h

theorem tsVal_merge (ord : List String → List String) (now : String) (e n : Fragment) :
    tsVal (merge_company_info ord now e n) = mergeNumField (tsVal e) (tsVal n) := by
  by_cases h : (siNonempty (e.support_info.getD emptySupportInfo) ||
      siNonempty (n.support_info.getD emptySupportInfo)) = true
  · simp [tsVal, merge_company_info, h, mergeSupportInfo]
  · simp only [Bool.or_eq_true, not_or, Bool.not_eq_true] at h
    rw [tsVal, merge_company_info]
    simp only [h.1, h.2, Bool.or_self]
    rw [if_neg (by decide), tsVal, tsVal, ts_none_of_empty _ h.1, ts_none_of_empty _ h.2]
    rfl

theorem svVal_merge (ord : List String → List String) (now : String) (e n : Fragment) :
    svVal (merge_company_info ord now e n) = mergeNumField (svVal e) (svVal n) := by
  by_cases h : (siNonempty (e.support_info.getD emptySupportInfo) ||
      siNonempty (n.support_info.getD emptySupportInfo)) = true
  · simp [svVal, merge_company_info, h, mergeSupportInfo]
  · simp only [Bool.or_eq_true, not_or, Bool.not_eq_true] at h
    rw [svVal, merge_company_info]
    simp only [h.1, h.2, Bool.or_self]
    rw [if_neg (by decide), svVal, svVal, sv_none_of_empty _ h.1, sv_none_of_empty _ h.2]
    rfl

theorem tvVal_merge (ord : List String → List String) (now : String) (e n : Fragment) :
    tvVal (merge_company_info ord now e n) = mergeNumField (tvVal e) (tvVal n) := by
  by_cases h : (siNonempty (e.support_info.getD emptySupportInfo) ||
      siNonempty (n.support_info.getD emptySupportInfo)) = true
  · simp [tvVal, merge_company_info, h, mergeSupportInfo]
  · simp only [Bool.or_eq_true, not_or, Bool.not_eq_true] at h
    rw [tvVal, merge_company_info]
    simp only [h.1, h.2, Bool.or_self]
    rw [if_neg (by decide), tvVal, tvVal, tv_none_of_empty _ h.1, tv_none_of_empty _ h.2]
    rfl

theorem numMergeOk_mergeNumField (e n : Option SVal) :
    NumMergeOk e n (mergeNumField e n) := by
  refine ⟨?_, ?_, ?_, ?_⟩
  · rintro a b rfl rfl; simp [mergeNumField, svalIsNum, svalMax]
  · rintro rfl hn
    cases n with
    | none => exact absurd rfl hn
    | some v => rfl
  · rintro rfl; rfl
  · rintro v he rfl hnum
    cases e with
    | none => exact absurd rfl he
    | some ev =>
      rcases hnum with h | h
      · simp [mergeNumField, h]
      · cases ev with
        | sInt a => exact absurd rfl (h a)
        | sStr s => simp [mergeNumField, svalIsNum]

/-- C6: for every fragment the data-quality score computed by
`calculate_company_score` — the additive contributions (10 each for name,
inn, industry; 15 each for primary site and primary email; 10 for any
support info plus 10 for team size, 10 for evidence, and
`min(3 × true channels, 10)`), summed and clamped — is an integer in
`[0, 100]`. -/
theorem c6_score_bounded (c : Fragment) :
    0 ≤ calculate_company_score c ∧ calculate_company_score c ≤ 100 :=
  ⟨Nat.zero_le _, Nat.min_le_right _ _⟩

/-- C1 counterexample: merging a fragment whose existing `team_size` is the
number 12 with an incoming fragment whose `team_size` is the non-numeric
string "many" *replaces* the existing numeric value with the string, so the
claimed "existing value is kept when the two are not both numeric" (and the
claimed absence of numeric-to-string downgrades) is false on the code. -/
theorem c1_counterexample :
    tsVal fragTS12 = some (.sInt 12) ∧
    tsVal fragTSmany = some (.sStr "many") ∧
    tsVal (merge_company_info dedupOrd "t" fragTS12 fragTSmany) = some (.sStr "many") :=
  ⟨rfl, rfl, rfl⟩

/-- C1 (amended): for every merge and each numeric support field
(`team_size`, `support_vacancies`, `total_vacancies`): when both values are
numeric the merged value is their maximum; when the incoming value is
present and the existing one absent the incoming value is taken; when the
incoming value is absent the existing value is kept; and in every other
both-present case the *incoming* value overwrites the existing one (an
existing numeric value is downgraded by a later non-numeric string). -/
theorem c1_numeric_merge_amended (ord : List String → List String) (now : String)
    (e n : Fragment) :
    NumMergeOk (tsVal e) (tsVal n) (tsVal (merge_company_info ord now e n)) ∧
    NumMergeOk (svVal e) (svVal n) (svVal (merge_company_info ord now e n)) ∧
    NumMergeOk (tvVal e) (tvVal n) (tvVal (merge_company_info ord now e n)) := by
  refine ⟨?_, ?_, ?_⟩
  · rw [tsVal_merge]; exact numMergeOk_mergeNumField _ _
  · rw [svVal_merge]; exact numMergeOk_mergeNumField _ _
  · rw [tvVal_merge]; exact numMergeOk_mergeNumField _ _

/-- C1 witness: the amended rule applied at two concrete numeric values
yields their maximum. -/
theorem c1_numeric_merge_witness :
    tsVal (merge_company_info dedupOrd "t" fragTS12 fragTS12) = some (.sInt (max 12 12)) :=
  (c1_numeric_merge_amended dedupOrd "t" fragTS12 fragTS12).1.1 12 12 rfl rfl

/-- C4: after every merge whose sites (resp. emails) union is non-empty,
the merged fragment's `primary_site` (resp. `primary_email`) is present,
is a member of the stored `sites` (resp. `emails`) sequence, and is its
first element; both the sequence and the primary are recomputed from the
union on each merge. -/
theorem c4_primary_is_first (ord : List String → List String) (now : String)
    (e n : Fragment) (hord : IsSetOrder ord) :
    (e.sites ++ n.sites ≠ [] →
      (merge_company_info ord now e n).sites = ord (e.sites ++ n.sites) ∧
      ∃ p, (merge_company_info ord now e n).primary_site = some p ∧
        (merge_company_info ord now e n).sites.head? = some p ∧
        p ∈ (merge_company_info ord now e n).sites) ∧
    (e.emails ++ n.emails ≠ [] →
      (merge_company_info ord now e n).emails = ord (e.emails ++ n.emails) ∧
      ∃ p, (merge_company_info ord now e n).primary_email = some p ∧
        (merge_company_info ord now e n).emails.head? = some p ∧
        p ∈ (merge_company_info ord now e n).emails) := by
  constructor
  · intro hne
    obtain ⟨x, hx⟩ := List.exists_mem_of_ne_nil _ hne
    have hxo : x ∈ ord (e.sites ++ n.sites) := ((hord _).2 x).mpr hx
    have hno : ord (e.sites ++ n.sites) ≠ [] := List.ne_nil_of_mem hxo
    cases hl : ord (e.sites ++ n.sites) with
    | nil => exact absurd hl hno
    | cons a t =>
      refine ⟨by simp [merge_company_info, hl], a, ?_, ?_, ?_⟩
      · simp [merge_company_info, hl]
      · simp [merge_company_info, hl]
      · simp [merge_company_info, hl]
  · intro hne
    obtain ⟨x, hx⟩ := List.exists_mem_of_ne_nil _ hne
    have hxo : x ∈ ord (e.emails ++ n.emails) := ((hord _).2 x).mpr hx
    have hno : ord (e.emails ++ n.emails) ≠ [] := List.ne_nil_of_mem hxo
    cases hl : ord (e.emails ++ n.emails) with
    | nil => exact absurd hl hno
    | cons a t =>
      refine ⟨by simp [merge_company_info, hl], a, ?_, ?_, ?_⟩
      · simp [merge_company_info, hl]
      · simp [merge_company_info, hl]
      · simp [merge_company_info, hl]

/-- C4 witness: the primary-site clause evaluated on a concrete merge with
one site. -/
theorem c4_primary_is_first_witness :
    (merge_company_info dedupOrd "t" fragSiteA blankFragment).sites =
      dedupOrd (fragSiteA.sites ++ blankFragment.sites) ∧
    ∃ p, (merge_company_info dedupOrd "t" fragSiteA blankFragment).primary_site = some p ∧
      (merge_company_info dedupOrd "t" fragSiteA blankFragment).sites.head? = some p ∧
      p ∈ (merge_company_info dedupOrd "t" fragSiteA blankFragment).sites :=
  (c4_primary_is_first dedupOrd "t" fragSiteA blankFragment isSetOrder_dedupOrd).1 (by decide)

theorem chanVal_extract_eq (row : Row) (src : String) (ch : Channels)
    (hch : extractChannels row = ch) (hne : chNonempty ch = true) :
    chanVal (extract_all_company_info row src) = ch := by
  simp [chanVal, extract_all_company_info, extractSupportInfo, hch, hne, siNonempty]

/-- C10: whenever a recognized channel column of a raw row holds a non-empty
string — including "false" or "0" — the extracted fragment marks that
channel `true`, because the extractor applies `bool(...)` (Python
truthiness) to the cell instead of parsing a boolean literal. -/
theorem c10_string_channels_truthy (row : Row) (src : String) :
    (∀ s : String, lookupA "has_support_email" row = some (.rStr s) → s ≠ "" →
      (chanVal (extract_all_company_info row src)).email = some true) ∧
    (∀ s : String, lookupA "has_contact_form" row = some (.rStr s) → s ≠ "" →
      (chanVal (extract_all_company_info row src)).contact_form = some true) ∧
    (∀ s : String, lookupA "has_online_chat" row = some (.rStr s) → s ≠ "" →
      (chanVal (extract_all_company_info row src)).online_chat = some true) ∧
    (∀ s : String, lookupA "has_messengers" row = some (.rStr s) → s ≠ "" →
      (chanVal (extract_all_company_info row src)).messengers = some true) ∧
    (∀ s : String, lookupA "has_support_section" row = some (.rStr s) → s ≠ "" →
      (chanVal (extract_all_company_info row src)).support_section = some true) ∧
    (∀ s : String, lookupA "has_kb_or_faq" row = some (.rStr s) → s ≠ "" →
      (chanVal (extract_all_company_info row src)).kb_faq = some true) ∧
    (∀ s : String, lookupA "mentions_24_7" row = some (.rStr s) → s ≠ "" →
      (chanVal (extract_all_company_info row src)).c24_7 = some true) := by
  refine ⟨?_, ?_, ?_, ?_, ?_, ?_, ?_⟩ <;>
  · intro s h hs
    have hch := chanVal_extract_eq row src (extractChannels row) rfl (by
      simp [chNonempty, extractChannels, boolCol, h])
    rw [hch]
    simp [extractChannels, boolCol, h, pyTruthy]
    rw [Bool.eq_false_iff, ne_eq, String.isEmpty_iff]
    exact hs

/-- C10 witness: a row whose seven channel columns hold the strings "false",
"0", "no", "False", "nope", "none", "false" extracts all seven flags as
`true`. -/
theorem c10_string_channels_truthy_witness :
    (chanVal (extract_all_company_info rowFalseChans "site")).email = some true ∧
    (chanVal (extract_all_company_info rowFalseChans "site")).contact_form = some true ∧
    (chanVal (extract_all_company_info rowFalseChans "site")).online_chat = some true ∧
    (chanVal (extract_all_company_info rowFalseChans "site")).messengers = some true ∧
    (chanVal (extract_all_company_info rowFalseChans "site")).support_section = some true ∧
    (chanVal (extract_all_company_info rowFalseChans "site")).kb_faq = some true ∧
    (chanVal (extract_all_company_info rowFalseChans "site")).c24_7 = some true := by
  have h := c10_string_channels_truthy rowFalseChans "site"
  exact ⟨h.1 "false" (by decide) (by decide),
         h.2.1 "0" (by decide) (by decide),
         h.2.2.1 "no" (by decide) (by decide),
         h.2.2.2.1 "False" (by decide) (by decide),
         h.2.2.2.2.1 "nope" (by decide) (by decide),
         h.2.2.2.2.2.1 "none" (by decide) (by decide),
         h.2.2.2.2.2.2 "false" (by decide) (by decide)⟩

/-- C2 counterexample: the scenario's premise and conclusion both fail on
the code.  `normalize_company_name "ООО Ромашка"` is "ООО РОМАШКА", not
"РОМАШКА" (the legal-form prefix is not stripped), so running the pipeline
on the two scenario rows yields two separate fragments; and even when the
two extracted fragments are merged directly, `sources` is `["jobs"]` — the
origin of the fragment that *created* the entry is never appended. -/
theorem c2_counterexample :
    normalize_company_name "ООО Ромашка" = "ООО РОМАШКА" ∧
    normalize_company_name "ООО Ромашка" ≠ normalize_company_name "Ромашка" ∧
    (create_master_dataset dedupOrd "t" scenarioSrcs).map Prod.fst =
      ["ООО РОМАШКА", "РОМАШКА"] ∧
    (merge_company_info dedupOrd "t" (extract_all_company_info rowSite "site")
      (extract_all_company_info rowJobs "jobs")).sources = some ["jobs"] := by
  refine ⟨by decide, by decide, by decide, by decide⟩

/-- C2 (amended): the two scenario rows normalize to the distinct keys
"ООО РОМАШКА" and "РОМАШКА" and therefore resolve to two separate
fragments; merging the two extracted fragments directly yields
`team_size = 12`, `support_vacancies = 3`, channels
`{online_chat: true, email: true}` and `sources = ["jobs"]`: the `sources`
sequence lists, without duplicates and in order of first appearance, the
origin tables of the fragments merged *into* an entry after its creation —
the origin of the initial fragment itself is not recorded.  Duplicate
freedom is preserved by every merge. -/
theorem c2_scenario_amended :
    (tsVal (merge_company_info dedupOrd "t" (extract_all_company_info rowSite "site")
        (extract_all_company_info rowJobs "jobs")) = some (.sInt 12) ∧
     svVal (merge_company_info dedupOrd "t" (extract_all_company_info rowSite "site")
        (extract_all_company_info rowJobs "jobs")) = some (.sInt 3) ∧
     (chanVal (merge_company_info dedupOrd "t" (extract_all_company_info rowSite "site")
        (extract_all_company_info rowJobs "jobs"))).online_chat = some true ∧
     (chanVal (merge_company_info dedupOrd "t" (extract_all_company_info rowSite "site")
        (extract_all_company_info rowJobs "jobs"))).email = some true ∧
     (merge_company_info dedupOrd "t" (extract_all_company_info rowSite "site")
        (extract_all_company_info rowJobs "jobs")).sources = some ["jobs"]) ∧
    (create_master_dataset dedupOrd "t" scenarioSrcs).map Prod.fst =
      ["ООО РОМАШКА", "РОМАШКА"] ∧
    (∀ (ord : List String → List String) (now : String) (e n : Fragment),
      (e.sources.getD []).Nodup →
      ((merge_company_info ord now e n).sources.getD []).Nodup) := by
  refine ⟨⟨by decide, by decide, by decide, by decide, by decide⟩, by decide, ?_⟩
  intro ord now e n hnd
  show (mergeSources (e.sources.getD []) n.source).Nodup
  cases hs : n.source with
  | none => exact hnd
  | some v =>
    simp only [mergeSources]
    split
    · next hcond => simp [List.nodup_append, hnd, hcond.2]
    · exact hnd

/-- C2 witness: duplicate freedom of `sources` applied at a concrete merge. -/
theorem c2_scenario_amended_witness :
    ((merge_company_info dedupOrd "t" (extract_all_company_info rowSite "site")
        (extract_all_company_info rowJobs "jobs")).sources.getD []).Nodup :=
  (c2_scenario_amended).2.2 dedupOrd "t" (extract_all_company_info rowSite "site")
    (extract_all_company_info rowJobs "jobs") (by decide)

theorem mergeChanField_comm (x y : Option Bool) : mergeChanField x y = mergeChanField y x := by
  cases x with
  | none => cases y <;> rfl
  | some a =>
    cases y with
    | none => rfl
    | some b => cases a <;> cases b <;> rfl

theorem mergeChanField_none_left (y : Option Bool) : mergeChanField none y = y := by
  cases y <;> rfl

theorem mergeChannelsOpt_getD_comm (x y : Option Channels) :
    (mergeChannelsOpt x y).getD emptyChannels = (mergeChannelsOpt y x).getD emptyChannels := by
  cases x with
  | none =>
    cases y with
    | none => rfl
    | some yc => cases yc; simp [mergeChannelsOpt, emptyChannels, mergeChanField_none_left]
  | some xc =>
    cases y with
    | none => cases xc; simp [mergeChannelsOpt, emptyChannels, mergeChanField_none_left]
    | some yc => simp [mergeChannelsOpt, mergeChanField_comm xc.email, mergeChanField_comm xc.contact_form,
        mergeChanField_comm xc.online_chat, mergeChanField_comm xc.messengers,
        mergeChanField_comm xc.support_section, mergeChanField_comm xc.kb_faq,
        mergeChanField_comm xc.c24_7]

theorem chanVal_merge (ord : List String → List String) (now : String) (e n : Fragment) :
    chanVal (merge_company_info ord now e n) =
      (mergeChannelsOpt (e.support_info.getD emptySupportInfo).channels
        (n.support_info.getD emptySupportInfo).channels).getD emptyChannels := by
  by_cases h : (siNonempty (e.support_info.getD emptySupportInfo) ||
      siNonempty (n.support_info.getD emptySupportInfo)) = true
  · simp [chanVal, merge_company_info, h, mergeSupportInfo]
  · simp only [Bool.or_eq_true, not_or, Bool.not_eq_true] at h
    rw [chanVal, merge_company_info]
    simp only [h.1, h.2, Bool.or_self]
    rw [if_neg (by decide), ch_none_of_empty _ h.1, ch_none_of_empty _ h.2]
    rfl

theorem mergeNumField_comm_of_compat (x y : Option SVal) (h : NumCompat x y) :
    mergeNumField x y = mergeNumField y x := by
  rcases h with ⟨a, b, rfl, rfl⟩ | rfl | rfl
  · simp [mergeNumField, svalIsNum, svalMax, max_comm]
  · cases y <;> rfl
  · cases x <;> rfl

/-- C5 counterexample: commutativity fails for the numeric-max fields when
one side is numeric and the other a non-numeric string — merging the
fragment with `team_size = 12` into the one with `team_size = "many"`
yields 12, the reverse order yields "many". -/
theorem c5_counterexample :
    tsVal (merge_company_info dedupOrd "t" fragTSmany fragTS12) = some (.sInt 12) ∧
    tsVal (merge_company_info dedupOrd "t" fragTS12 fragTSmany) = some (.sStr "many") ∧
    (some (SVal.sInt 12) : Option SVal) ≠ some (.sStr "many") :=
  ⟨rfl, rfl, by decide⟩

/-- C5 (amended): merging A then B and B then A agree on the membership of
`sites` and `emails` and on every channel flag; they agree on a numeric-max
field (`team_size`, `support_vacancies`, `total_vacancies`) whenever that
field's two values are both numeric or at most one of them is present —
when one value is numeric and the other a non-numeric string the result is
order-dependent (the incoming side wins). -/
theorem c5_merge_commutative (ord : List String → List String) (now : String)
    (a b : Fragment) (hord : IsSetOrder ord) :
    (∀ x, x ∈ (merge_company_info ord now a b).sites ↔
      x ∈ (merge_company_info ord now b a).sites) ∧
    (∀ x, x ∈ (merge_company_info ord now a b).emails ↔
      x ∈ (merge_company_info ord now b a).emails) ∧
    chanVal (merge_company_info ord now a b) = chanVal (merge_company_info ord now b a) ∧
    (NumCompat (tsVal a) (tsVal b) →
      tsVal (merge_company_info ord now a b) = tsVal (merge_company_info ord now b a)) ∧
    (NumCompat (svVal a) (svVal b) →
      svVal (merge_company_info ord now a b) = svVal (merge_company_info ord now b a)) ∧
    (NumCompat (tvVal a) (tvVal b) →
      tvVal (merge_company_info ord now a b) = tvVal (merge_company_info ord now b a)) := by
  have hordnil : ord [] = [] :=
    List.eq_nil_iff_forall_not_mem.mpr (fun y hy => by simpa using ((hord []).2 y).mp hy)
  refine ⟨?_, ?_, ?_, ?_, ?_, ?_⟩
  · intro x
    by_cases h : a.sites ++ b.sites = []
    · obtain ⟨h1, h2⟩ := List.append_eq_nil.mp h
      simp [merge_company_info, h1, h2, hordnil]
    · have hy := List.exists_mem_of_ne_nil _ h
      obtain ⟨y, hy⟩ := hy
      have hab : ord (a.sites ++ b.sites) ≠ [] :=
        List.ne_nil_of_mem (((hord _).2 y).mpr hy)
      have hyba : y ∈ b.sites ++ a.sites := by
        rw [List.mem_append] at hy ⊢; exact hy.symm
      have hba : ord (b.sites ++ a.sites) ≠ [] :=
        List.ne_nil_of_mem (((hord _).2 y).mpr hyba)
      simp only [merge_company_info, if_pos hab, if_pos hba]
      rw [(hord _).2 x, (hord _).2 x, List.mem_append, List.mem_append]
      exact or_comm
  · intro x
    by_cases h : a.emails ++ b.emails = []
    · obtain ⟨h1, h2⟩ := List.append_eq_nil.mp h
      simp [merge_company_info, h1, h2, hordnil]
    · have hy := List.exists_mem_of_ne_nil _ h
      obtain ⟨y, hy⟩ := hy
      have hab : ord (a.emails ++ b.emails) ≠ [] :=
        List.ne_nil_of_mem (((hord _).2 y).mpr hy)
      have hyba : y ∈ b.emails ++ a.emails := by
        rw [List.mem_append] at hy ⊢; exact hy.symm
      have hba : ord (b.emails ++ a.emails) ≠ [] :=
        List.ne_nil_of_mem (((hord _).2 y).mpr hyba)
      simp only [merge_company_info, if_pos hab, if_pos hba]
      rw [(hord _).2 x, (hord _).2 x, List.mem_append, List.mem_append]
      exact or_comm
  · rw [chanVal_merge, chanVal_merge]
    exact mergeChannelsOpt_getD_comm _ _
  · intro hc; rw [tsVal_merge, tsVal_merge]; exact mergeNumField_comm_of_compat _ _ hc
  · intro hc; rw [svVal_merge, svVal_merge]; exact mergeNumField_comm_of_compat _ _ hc
  · intro hc; rw [tvVal_merge, tvVal_merge]; exact mergeNumField_comm_of_compat _ _ hc

/-- C5 witness: order-independence evaluated at concrete fragments (a site
membership, all channel flags, and a compatible numeric field). -/
theorem c5_merge_commutative_witness :
    ("a.com" ∈ (merge_company_info dedupOrd "t" fragSiteA blankFragment).sites ↔
      "a.com" ∈ (merge_company_info dedupOrd "t" blankFragment fragSiteA).sites) ∧
    chanVal (merge_company_info dedupOrd "t" fragTS12 fragTSmany) =
      chanVal (merge_company_info dedupOrd "t" fragTSmany fragTS12) ∧
    tsVal (merge_company_info dedupOrd "t" fragTS12 blankFragment) =
      tsVal (merge_company_info dedupOrd "t" blankFragment fragTS12) :=
  ⟨(c5_merge_commutative dedupOrd "t" fragSiteA blankFragment isSetOrder_dedupOrd).1 "a.com",
   (c5_merge_commutative dedupOrd "t" fragTS12 fragTSmany isSetOrder_dedupOrd).2.2.1,
   (c5_merge_commutative dedupOrd "t" fragTS12 blankFragment isSetOrder_dedupOrd).2.2.2.1
     (Or.inr (Or.inr rfl))⟩

theorem mem_insDesc (x r : CompanyRecord) (l : List CompanyRecord) :
    x ∈ insDesc r l ↔ x = r ∨ x ∈ l := by
  induction l with
  | nil => simp [insDesc]
  | cons y ys ih =>
    rw [insDesc]
    split
    · simp [List.mem_cons]
    · simp only [List.mem_cons, ih]
      tauto

theorem mem_sortByScoreDesc (x : CompanyRecord) (l : List CompanyRecord) :
    x ∈ sortByScoreDesc l ↔ x ∈ l := by
  induction l with
  | nil => simp [sortByScoreDesc]
  | cons y ys ih =>
    show x ∈ insDesc y (sortByScoreDesc ys) ↔ _
    rw [mem_insDesc, ih]
    simp [List.mem_cons]

theorem mem_enhanceFrom (r : CompanyRecord) (i : Nat) (m : Master)
    (h : r ∈ enhanceFrom i m) :
    ∃ j f, r = mkRecord j f ∧ ∃ k, (k, f) ∈ m := by
  induction m generalizing i with
  | nil => simp [enhanceFrom] at h
  | cons p rest ih =>
    obtain ⟨k, f⟩ := p
    rw [enhanceFrom, List.mem_cons] at h
    rcases h with h | h
    · exact ⟨i, f, h, k, by simp⟩
    · obtain ⟨j, g, hr, k2, hk⟩ := ih (i + 1) h
      exact ⟨j, g, hr, k2, by simp [hk]⟩

/-- C8 counterexample: a fragment whose `team_size` is the non-numeric
string "five" (column value not numeric-coercible) is enriched into a
record whose `support_team_size` is that raw string, not an integer —
`support_team_size` is copied verbatim by `.get('team_size', 0)`. -/
theorem c8_counterexample :
    (run_pipeline dedupOrd "t" wordSizeSrcs).map (fun r => r.support_team_size) =
      [.sStr "five"] ∧
    (run_pipeline dedupOrd "t" wordSizeSrcs).map (fun r => svalIsNum r.support_team_size) =
      [false] :=
  ⟨by decide, by decide⟩

/-- C8 (amended): for every record produced by enrichment,
`support_team_size` equals the merged fragment's `team_size` value verbatim
— an integer *or* a string — and is the integer 0 when `team_size` is
absent; `has_support_team` is true exactly when `team_size` is present and
truthy. -/
theorem c8_enrich_amended (m : Master) (r : CompanyRecord)
    (h : r ∈ enhance_and_score_companies m) :
    r.support_team_size = (tsVal r.frag).getD (.sInt 0) ∧
    (tsVal r.frag = none → r.support_team_size = .sInt 0) ∧
    (r.has_support_team = true ↔ ∃ v, tsVal r.frag = some v ∧ svalTruthy v = true) := by
  rw [enhance_and_score_companies, mem_sortByScoreDesc] at h
  obtain ⟨j, f, rfl, -⟩ := mem_enhanceFrom r 0 m h
  refine ⟨rfl, ?_, ?_⟩
  · intro h0
    simp only [tsVal, mkRecord] at h0 ⊢
    simp [h0]
  · cases hts : (f.support_info.getD emptySupportInfo).team_size with
    | none => simp [mkRecord, tsVal, hts]
    | some v => simp [mkRecord, tsVal, hts]

/-- C8 witness: the amended equations evaluated on a concrete enriched
record with numeric team size 12. -/
theorem c8_enrich_amended_witness :
    (mkRecord 0 fragTS12).support_team_size = (tsVal (mkRecord 0 fragTS12).frag).getD (.sInt 0) ∧
    ((mkRecord 0 fragTS12).has_support_team = true ↔
      ∃ v, tsVal (mkRecord 0 fragTS12).frag = some v ∧ svalTruthy v = true) :=
  ⟨(c8_enrich_amended [("X", fragTS12)] (mkRecord 0 fragTS12) (by decide)).1,
   (c8_enrich_amended [("X", fragTS12)] (mkRecord 0 fragTS12) (by decide)).2.2⟩

theorem merge_stampF_left (ord : List String → List String) (now t : String) (e n : Fragment) :
    merge_company_info ord now (stampF t e) n = merge_company_info ord now e n := by
  cases e; rfl

theorem stampF_merge (ord : List String → List String) (now t : String) (e n : Fragment) :
    stampF t (merge_company_info ord now e n) = merge_company_info ord t e n := by
  cases e; rfl

theorem stampF_insert (t : String) (row : Row) (src k : String) :
    stampF t { extract_all_company_info row src with normalized_name := some k } =
      { extract_all_company_info row src with normalized_name := some k } := rfl

theorem lookupA_stampMaster (t k : String) (m : Master) :
    lookupA k (stampMaster t m) = (lookupA k m).map (stampF t) := by
  induction m with
  | nil => rfl
  | cons p rest ih =>
    by_cases h : p.1 = k
    · simp [stampMaster, lookupA, h]
    · simp only [stampMaster, List.map_cons, lookupA, if_neg h]
      simpa [stampMaster] using ih

theorem processRow_stamp (ord : List String → List String) (now1 now2 : String)
    (m : Master) (src : String) (row : Row) :
    processRow ord now1 (stampMaster now1 m) src row =
      stampMaster now1 (processRow ord now2 m src row) := by
  rw [processRow, processRow]
  by_cases hname : ((extract_all_company_info row src).name.getD "") = ""
  · simp [hname]
  · rw [if_neg hname, if_neg hname]
    have hlk := lookupA_stampMaster now1
      (normalize_company_name ((extract_all_company_info row src).name.getD "")) m
    by_cases hl : (lookupA
        (normalize_company_name ((extract_all_company_info row src).name.getD "")) m).isSome
    · rw [if_pos (by simp [hlk, hl]), if_pos hl]
      simp only [assocUpdate, stampMaster, List.map_map]
      apply List.map_congr_left
      intro p _
      by_cases hpk : p.1 = normalize_company_name ((extract_all_company_info row src).name.getD "")
      · simp only [Function.comp]
        rw [if_pos hpk, if_pos hpk]
        simp only [merge_stampF_left]
        rw [stampF_merge]
      · simp only [Function.comp]
        rw [if_neg hpk, if_neg hpk]
    · rw [if_neg (by simp [hlk, hl]), if_neg hl]
      simp [stampMaster, stampF_insert]

theorem rowsFold_stamp (ord : List String → List String) (now1 now2 : String)
    (src : String) (rows : List Row) :
    ∀ m : Master,
      rows.foldl (fun m2 r => processRow ord now1 m2 src r) (stampMaster now1 m) =
        stampMaster now1 (rows.foldl (fun m2 r => processRow ord now2 m2 src r) m) := by
  induction rows with
  | nil => intro m; rfl
  | cons r rest ih =>
    intro m
    simp only [List.foldl_cons]
    rw [processRow_stamp ord now1 now2 m src r]
    exact ih _

theorem create_master_stamp (ord : List String → List String) (now1 now2 : String)
    (srcs : List (String × List Row)) :
    create_master_dataset ord now1 srcs =
      stampMaster now1 (create_master_dataset ord now2 srcs) := by
  rw [create_master_dataset, create_master_dataset]
  have key : ∀ (ss : List (String × List Row)) (m : Master),
      ss.foldl (fun m p => p.2.foldl (fun m2 r => processRow ord now1 m2 p.1 r) m)
        (stampMaster now1 m) =
      stampMaster now1
        (ss.foldl (fun m p => p.2.foldl (fun m2 r => processRow ord now2 m2 p.1 r) m) m) := by
    intro ss
    induction ss with
    | nil => intro m; rfl
    | cons p rest ih =>
      intro m
      simp only [List.foldl_cons]
      rw [rowsFold_stamp ord now1 now2 p.1 p.2 m]
      exact ih _
  exact key srcs []

theorem mkRecord_stampF (i : Nat) (t : String) (f : Fragment) :
    mkRecord i (stampF t f) = stampRec t (mkRecord i f) := by
  cases f; rfl

theorem stampRec_score (t : String) (r : CompanyRecord) :
    (stampRec t r).data_quality_score = r.data_quality_score := by
  cases r; rfl

theorem enhanceFrom_stamp (t : String) : ∀ (m : Master) (i : Nat),
    enhanceFrom i (stampMaster t m) = (enhanceFrom i m).map (stampRec t) := by
  intro m
  induction m with
  | nil => intro i; rfl
  | cons p rest ih =>
    intro i
    obtain ⟨k, f⟩ := p
    show enhanceFrom i ((k, stampF t f) :: stampMaster t rest) = _
    rw [enhanceFrom, mkRecord_stampF, ih (i + 1), enhanceFrom]
    rfl

theorem insDesc_map_stamp (t : String) (r : CompanyRecord) (l : List CompanyRecord) :
    insDesc (stampRec t r) (l.map (stampRec t)) = (insDesc r l).map (stampRec t) := by
  induction l with
  | nil => rfl
  | cons x xs ih =>
    simp only [List.map_cons, insDesc, stampRec_score]
    split
    · rfl
    · rw [List.map_cons, ih]

theorem sort_map_stamp (t : String) (l : List CompanyRecord) :
    sortByScoreDesc (l.map (stampRec t)) = (sortByScoreDesc l).map (stampRec t) := by
  induction l with
  | nil => rfl
  | cons x xs ih =>
    show insDesc (stampRec t x) (sortByScoreDesc (xs.map (stampRec t))) = _
    rw [ih]
    exact insDesc_map_stamp t x (sortByScoreDesc xs)

theorem scrub_stampRec (t : String) (r : CompanyRecord) :
    scrubRecord (stampRec t r) = scrubRecord r := by
  cases r; rfl

/-- C3 counterexample: the claimed run-to-run determinism fails because the
iteration order of Python's string sets (`list(set(...))`) varies with the
per-process hash seed: two valid set orders applied to the same fixed input
tables yield outputs that differ (in `primary_site` and the order of
`sites`) even after erasing `last_updated`. -/
theorem c3_counterexample :
    IsSetOrder dedupOrd ∧ IsSetOrder dedupRevOrd ∧
    (run_pipeline dedupOrd "t" twoSiteSrcs).map scrubRecord ≠
      (run_pipeline dedupRevOrd "t" twoSiteSrcs).map scrubRecord :=
  ⟨isSetOrder_dedupOrd, isSetOrder_dedupRevOrd, by decide⟩

/-- C3 (amended): for a fixed mapping of source tables processed in a fixed
order *and a fixed set-iteration order*, two runs of the pipeline produce
identical output tables in every field except `last_updated` — the
timestamps of the two runs may differ arbitrarily; only `sites`/`emails`
ordering and hence `primary_site`/`primary_email` additionally depend on
the per-process set order (with it fixed, they too are identical, as are
all scores and the contents of `sites` and `emails`). -/
theorem c3_deterministic_modulo_timestamp (ord : List String → List String)
    (now1 now2 : String) (srcs : List (String × List Row)) :
    (run_pipeline ord now1 srcs).map scrubRecord =
      (run_pipeline ord now2 srcs).map scrubRecord := by
  rw [run_pipeline, run_pipeline, enhance_and_score_companies, enhance_and_score_companies,
    create_master_stamp ord now1 now2 srcs, enhanceFrom_stamp now1, sort_map_stamp now1,
    List.map_map]
  apply List.map_congr_left
  intro r _
  exact scrub_stampRec now1 r

theorem keys_assocUpdate (m : Master) (k : String) (g : Fragment → Fragment) :
    (assocUpdate m k g).map Prod.fst = m.map Prod.fst := by
  simp only [assocUpdate, List.map_map]
  apply List.map_congr_left
  intro p _
  by_cases h : p.1 = k <;> simp [h]

theorem lookupA_isSome_iff_mem {α : Type} (k : String) (m : List (String × α)) :
    (lookupA k m).isSome = true ↔ k ∈ m.map Prod.fst := by
  induction m with
  | nil => simp [lookupA]
  | cons p rest ih =>
    by_cases h : p.1 = k
    · simp [lookupA, h]
    · simp only [lookupA, if_neg h, List.map_cons, List.mem_cons, ih]
      have : ¬k = p.1 := fun hk => h hk.symm
      simp [this]

theorem keys_processRow (ord : List String → List String) (now : String)
    (m : Master) (src : String) (row : Row) :
    (processRow ord now m src row).map Prod.fst =
      (match extractKey src row with
       | none => m.map Prod.fst
       | some k => addKey (m.map Prod.fst) k) := by
  rw [processRow, extractKey]
  by_cases hname : ((extract_all_company_info row src).name.getD "") = ""
  · simp [hname]
  · rw [if_neg hname, if_neg hname]
    by_cases hl : (lookupA
        (normalize_company_name ((extract_all_company_info row src).name.getD "")) m).isSome
    · rw [if_pos hl, keys_assocUpdate]
      have hmem := (lookupA_isSome_iff_mem _ m).mp hl
      simp [addKey, hmem]
    · rw [if_neg hl]
      have hmem : normalize_company_name ((extract_all_company_info row src).name.getD "")
          ∉ m.map Prod.fst := fun hm => hl ((lookupA_isSome_iff_mem _ m).mpr hm)
      simp [addKey, hmem]

theorem keys_rowsFold (ord : List String → List String) (now : String)
    (src : String) (rows : List Row) :
    ∀ m : Master,
      ((rows.foldl (fun m2 r => processRow ord now m2 src r) m).map Prod.fst) =
        keyFold (m.map Prod.fst) (rows.map (extractKey src)) := by
  induction rows with
  | nil => intro m; rfl
  | cons r rest ih =>
    intro m
    simp only [List.foldl_cons, List.map_cons]
    rw [ih, keys_processRow]
    cases extractKey src r <;> rfl

theorem keyFold_append (ks : List String) (l1 l2 : List (Option String)) :
    keyFold ks (l1 ++ l2) = keyFold (keyFold ks l1) l2 := by
  simp [keyFold, List.foldl_append]

theorem keys_create_master (ord : List String → List String) (now : String)
    (srcs : List (String × List Row)) :
    (create_master_dataset ord now srcs).map Prod.fst = keyFold [] (allKeys srcs) := by
  rw [create_master_dataset]
  have key : ∀ (ss : List (String × List Row)) (m : Master),
      ((ss.foldl (fun m p => p.2.foldl (fun m2 r => processRow ord now m2 p.1 r) m) m).map
        Prod.fst) = keyFold (m.map Prod.fst) (allKeys ss) := by
    intro ss
    induction ss with
    | nil => intro m; rfl
    | cons p rest ih =>
      intro m
      simp only [List.foldl_cons]
      rw [ih, keys_rowsFold]
      rw [show allKeys (p :: rest) = p.2.map (extractKey p.1) ++ allKeys rest from rfl,
        keyFold_append]
  exact key srcs []

theorem nodup_addKey (ks : List String) (k : String) (h : ks.Nodup) : (addKey ks k).Nodup := by
  rw [addKey]
  split
  · exact h
  · next hk => simp [List.nodup_append, h, hk]

theorem nodup_keyFold (l : List (Option String)) :
    ∀ ks : List String, ks.Nodup → (keyFold ks l).Nodup := by
  induction l with
  | nil => intro ks h; exact h
  | cons o rest ih =>
    intro ks h
    cases o with
    | none => exact ih ks h
    | some k => exact ih _ (nodup_addKey ks k h)

theorem mem_addKey (x : String) (ks : List String) (k : String) :
    x ∈ addKey ks k ↔ x ∈ ks ∨ x = k := by
  rw [addKey]
  split
  · next hk => exact ⟨Or.inl, fun h => h.elim id (fun hx => hx ▸ hk)⟩
  · simp

theorem mem_keyFold (x : String) (l : List (Option String)) :
    ∀ ks : List String, (x ∈ keyFold ks l ↔ x ∈ ks ∨ some x ∈ l) := by
  induction l with
  | nil => intro ks; simp [keyFold]
  | cons o rest ih =>
    intro ks
    cases o with
    | none =>
      show x ∈ keyFold ks rest ↔ _
      rw [ih]
      simp
    | some k =>
      show x ∈ keyFold (addKey ks k) rest ↔ _
      rw [ih, mem_addKey]
      simp only [List.mem_cons, Option.some.injEq]
      tauto

theorem length_insDesc (r : CompanyRecord) (l : List CompanyRecord) :
    (insDesc r l).length = l.length + 1 := by
  induction l with
  | nil => rfl
  | cons x xs ih =>
    rw [insDesc]
    split
    · rfl
    · simp [ih]

theorem length_sortByScoreDesc (l : List CompanyRecord) :
    (sortByScoreDesc l).length = l.length := by
  induction l with
  | nil => rfl
  | cons x xs ih =>
    show (insDesc x (sortByScoreDesc xs)).length = _
    rw [length_insDesc, ih]
    rfl

theorem length_enhanceFrom : ∀ (m : Master) (i : Nat), (enhanceFrom i m).length = m.length := by
  intro m
  induction m with
  | nil => intro i; rfl
  | cons p rest ih =>
    intro i
    obtain ⟨k, f⟩ := p
    rw [enhanceFrom]
    simp [ih]

/-- C7: after resolution over any source tables, the map has no duplicate
normalized-name keys; a row whose extracted name is absent or empty (a
blank name strips to empty) contributes nothing; and the number of company
records produced by enrichment equals the number of distinct normalized
names among the fragments with a non-empty extracted name. -/
theorem c7_identity_unique (ord : List String → List String) (now : String)
    (srcs : List (String × List Row)) :
    ((create_master_dataset ord now srcs).map Prod.fst).Nodup ∧
    (∀ (m : Master) (src : String) (row : Row),
      ((extract_all_company_info row src).name.getD "") = "" →
      processRow ord now m src row = m) ∧
    (enhance_and_score_companies (create_master_dataset ord now srcs)).length =
      (((allKeys srcs).filterMap id).dedup).length := by
  refine ⟨?_, ?_, ?_⟩
  · rw [keys_create_master]
    exact nodup_keyFold _ [] List.nodup_nil
  · intro m src row h
    simp [processRow, h]
  · rw [enhance_and_score_companies, length_sortByScoreDesc, length_enhanceFrom]
    have h1 : (create_master_dataset ord now srcs).length =
        ((create_master_dataset ord now srcs).map Prod.fst).length :=
      (List.length_map _ _).symm
    rw [h1, keys_create_master]
    apply List.Perm.length_eq
    rw [List.perm_ext_iff_of_nodup (nodup_keyFold _ [] List.nodup_nil) (List.nodup_dedup _)]
    intro a
    rw [mem_keyFold, List.mem_dedup, List.mem_filterMap]
    simp

/-- C7 witness: uniqueness and the count evaluated on a concrete set of
tables containing a blank-name row and two rows normalizing alike. -/
theorem c7_identity_unique_witness :
    ((create_master_dataset dedupOrd "t" mixedSrcs).map Prod.fst).Nodup ∧
    processRow dedupOrd "t" [] "seed" [("name", .rStr " ")] = [] ∧
    (enhance_and_score_companies (create_master_dataset dedupOrd "t" mixedSrcs)).length =
      (((allKeys mixedSrcs).filterMap id).dedup).length :=
  ⟨(c7_identity_unique dedupOrd "t" mixedSrcs).1,
   (c7_identity_unique dedupOrd "t" mixedSrcs).2.1 [] "seed" [("name", .rStr " ")] (by decide),
   (c7_identity_unique dedupOrd "t" mixedSrcs).2.2⟩

set_option maxHeartbeats 1000000 in
theorem upperPairs_facts : ∀ p ∈ upperPairs, upperPairs.lookup p.2 = none ∧
    isPyWs p.1 = false ∧ isPyWs p.2 = false ∧ isPunct p.2 = false := by decide

theorem lookup_mem : ∀ {l : List (Char × Char)} {c u : Char},
    l.lookup c = some u → (c, u) ∈ l := by
  intro l
  induction l with
  | nil => intro c u h; simp [List.lookup] at h
  | cons p rest ih =>
    intro c u h
    rw [List.lookup] at h
    cases hbeq : c == p.1 with
    | true =>
      rw [hbeq] at h
      have hc : c = p.1 := by simpa using hbeq
      have hu : u = p.2 := by simpa using h.symm
      subst hc; subst hu
      exact List.mem_cons_self _ _
    | false =>
      rw [hbeq] at h
      exact List.mem_cons_of_mem _ (ih h)

theorem pyUpperChar_idem (c : Char) : pyUpperChar (pyUpperChar c) = pyUpperChar c := by
  cases hl : upperPairs.lookup c with
  | none => simp [pyUpperChar, hl]
  | some u =>
    have hfacts := upperPairs_facts (c, u) (lookup_mem hl)
    simp only at hfacts
    simp [pyUpperChar, hl, hfacts.1]

theorem pyUpperChar_ws (c : Char) : isPyWs (pyUpperChar c) = isPyWs c := by
  rw [pyUpperChar]
  cases hl : upperPairs.lookup c with
  | none => rfl
  | some u =>
    have hfacts := upperPairs_facts (c, u) (lookup_mem hl)
    simp [hfacts.2.1, hfacts.2.2.1]

theorem pyUpperChar_punct (c : Char) (h : isPunct c = false) :
    isPunct (pyUpperChar c) = false := by
  rw [pyUpperChar]
  cases hl : upperPairs.lookup c with
  | none => exact h
  | some u =>
    have hfacts := upperPairs_facts (c, u) (lookup_mem hl)
    simpa using hfacts.2.2.2

theorem pyUpperChar_space : pyUpperChar ' ' = ' ' := by decide

theorem mem_stripChars {c : Char} {l : List Char} (h : c ∈ stripChars l) : c ∈ l := by
  rw [stripChars] at h
  have h1 := List.mem_reverse.mp h
  have h2 := (List.dropWhile_sublist isPyWs).mem h1
  have h3 := List.mem_reverse.mp h2
  exact (List.dropWhile_sublist isPyWs).mem h3

theorem mem_collapseAux : ∀ (l : List Char) (b : Bool) (c : Char),
    c ∈ collapseAux b l → c = ' ' ∨ c ∈ l := by
  intro l
  induction l with
  | nil => intro b c h; simp [collapseAux] at h
  | cons a t ih =>
    intro b c h
    rw [collapseAux] at h
    by_cases hw : isPyWs a = true
    · rw [if_pos hw] at h
      cases b with
      | true =>
        rcases ih true c h with h2 | h2
        · exact Or.inl h2
        · exact Or.inr (List.mem_cons_of_mem _ h2)
      | false =>
        rw [if_neg (by simp)] at h
        rcases List.mem_cons.mp h with h2 | h2
        · exact Or.inl h2
        · rcases ih true c h2 with h3 | h3
          · exact Or.inl h3
          · exact Or.inr (List.mem_cons_of_mem _ h3)
    · rw [if_neg hw] at h
      rcases List.mem_cons.mp h with h2 | h2
      · exact Or.inr (h2 ▸ List.mem_cons_self _ _)
      · rcases ih false c h2 with h3 | h3
        · exact Or.inl h3
        · exact Or.inr (List.mem_cons_of_mem _ h3)

theorem noLead_dropWhile (l : List Char) : noLead (l.dropWhile isPyWs) = true := by
  induction l with
  | nil => rfl
  | cons c t ih =>
    by_cases hw : isPyWs c = true
    · simpa [List.dropWhile_cons, hw] using ih
    · simp [List.dropWhile_cons, hw, noLead]

theorem dropWhile_append_singleton (m : List Char) (c : Char) (h : isPyWs c = false) :
    (m ++ [c]).dropWhile isPyWs = m.dropWhile isPyWs ++ [c] := by
  induction m with
  | nil => simp [List.dropWhile_cons, h]
  | cons a m2 ih =>
    by_cases hw : isPyWs a = true
    · simpa [List.dropWhile_cons, hw] using ih
    · simp [List.dropWhile_cons, hw]

theorem noLead_stripChars (l : List Char) : noLead (stripChars l) = true := by
  rw [stripChars]
  cases hd : l.dropWhile isPyWs with
  | nil => rfl
  | cons c m =>
    have hc : isPyWs c = false := by
      have := noLead_dropWhile l
      rw [hd] at this
      simpa [noLead] using this
    rw [show (c :: m).reverse = m.reverse ++ [c] from by simp,
      dropWhile_append_singleton _ _ hc]
    simp [noLead, hc]

theorem noTrail_append_singleton : ∀ (m : List Char) (c : Char),
    noTrail (m ++ [c]) = !isPyWs c
  | [], _ => rfl
  | [_], _ => rfl
  | _ :: b :: m, c => noTrail_append_singleton (b :: m) c

theorem noTrail_stripChars (l : List Char) : noTrail (stripChars l) = true := by
  rw [stripChars]
  cases hd : (l.dropWhile isPyWs).reverse.dropWhile isPyWs with
  | nil => rfl
  | cons c m =>
    have hc : isPyWs c = false := by
      have := noLead_dropWhile (l.dropWhile isPyWs).reverse
      rw [hd] at this
      simpa [noLead] using this
    rw [show (c :: m).reverse = m.reverse ++ [c] from by simp, noTrail_append_singleton]
    simp [hc]

theorem dropWhile_eq_self_of_noLead {l : List Char} (h : noLead l = true) :
    l.dropWhile isPyWs = l := by
  cases l with
  | nil => rfl
  | cons c t =>
    rw [noLead] at h
    simp [List.dropWhile_cons, show isPyWs c = false from by simpa using h]

theorem noLead_reverse_of_noTrail {l : List Char} (h : noTrail l = true) :
    noLead l.reverse = true := by
  cases hr : l.reverse with
  | nil => rfl
  | cons c m =>
    have hl : l = m.reverse ++ [c] := by
      have := congrArg List.reverse hr
      simpa using this
    rw [hl, noTrail_append_singleton] at h
    simp [noLead, show isPyWs c = false from by simpa using h]

theorem stripChars_eq_self {l : List Char} (h1 : noLead l = true) (h2 : noTrail l = true) :
    stripChars l = l := by
  rw [stripChars, dropWhile_eq_self_of_noLead h1,
    dropWhile_eq_self_of_noLead (noLead_reverse_of_noTrail h2), List.reverse_reverse]

theorem noLead_collapseAux_true : ∀ l : List Char, noLead (collapseAux true l) = true := by
  intro l
  induction l with
  | nil => rfl
  | cons c t ih =>
    rw [collapseAux]
    by_cases hw : isPyWs c = true
    · simpa [hw] using ih
    · simp [hw, noLead]

theorem noTrail_cons_of_ne {a : Char} {t : List Char} (h : t ≠ []) :
    noTrail (a :: t) = noTrail t := by
  cases t with
  | nil => exact absurd rfl h
  | cons b m => rfl

theorem collapseAux_ne_nil : ∀ (l : List Char) (b : Bool), noTrail l = true → l ≠ [] →
    collapseAux b l ≠ [] := by
  intro l
  induction l with
  | nil => intro b _ h; exact absurd rfl h
  | cons c t ih =>
    intro b hnt _
    rw [collapseAux]
    by_cases hw : isPyWs c = true
    · rw [if_pos hw]
      have ht : t ≠ [] := by
        intro he; subst he
        rw [noTrail] at hnt
        simp [hw] at hnt
      have hnt2 : noTrail t = true := by rwa [noTrail_cons_of_ne ht] at hnt
      cases b with
      | true => exact ih true hnt2 ht
      | false => simp
    · rw [if_neg hw]; simp

theorem noTrail_collapseAux : ∀ (l : List Char) (b : Bool), noTrail l = true →
    noTrail (collapseAux b l) = true := by
  intro l
  induction l with
  | nil => intro b _; rfl
  | cons c t ih =>
    intro b hnt
    rw [collapseAux]
    by_cases hw : isPyWs c = true
    · rw [if_pos hw]
      have ht : t ≠ [] := by
        intro he; subst he
        rw [noTrail] at hnt
        simp [hw] at hnt
      have hnt2 : noTrail t = true := by rwa [noTrail_cons_of_ne ht] at hnt
      cases b with
      | true => exact ih true hnt2
      | false =>
        rw [if_neg (by simp)]
        rw [noTrail_cons_of_ne (collapseAux_ne_nil t true hnt2 ht)]
        exact ih true hnt2
    · have hw2 : isPyWs c = false := by simpa using hw
      rw [if_neg hw]
      by_cases ht : t = []
      · subst ht
        show noTrail (c :: collapseAux false []) = true
        simp [collapseAux, noTrail, hw2]
      · have hnt2 : noTrail t = true := by rwa [noTrail_cons_of_ne ht] at hnt
        rw [noTrail_cons_of_ne (collapseAux_ne_nil t false hnt2 ht)]
        exact ih false hnt2

theorem noLead_collapseAux_false {l : List Char} (h : noLead l = true) :
    noLead (collapseAux false l) = true := by
  cases l with
  | nil => rfl
  | cons c t =>
    rw [noLead] at h
    have hw : isPyWs c = false := by simpa using h
    rw [collapseAux, if_neg (by simp [hw])]
    simp [noLead, hw]

theorem oneSpaced_tail {a : Char} {t : List Char} (h : oneSpaced (a :: t) = true) :
    oneSpaced t = true := by
  cases t with
  | nil => rfl
  | cons b m =>
    rw [oneSpaced] at h
    simp only [Bool.and_eq_true] at h
    exact h.2

theorem oneSpaced_cons_head {a b : Char} {m : List Char}
    (h : oneSpaced (a :: b :: m) = true) : (isPyWs a && isPyWs b) = false := by
  rw [oneSpaced] at h
  simp only [Bool.and_eq_true] at h
  have h1 := h.1
  cases hx : (isPyWs a && isPyWs b) with
  | false => rfl
  | true => rw [hx] at h1; exact absurd h1 (by simp)

theorem oneSpaced_cons {a : Char} {t : List Char} (h : oneSpaced t = true)
    (hh : ∀ b m, t = b :: m → (isPyWs a && isPyWs b) = false) :
    oneSpaced (a :: t) = true := by
  cases t with
  | nil => rfl
  | cons b m =>
    rw [oneSpaced]
    simp [hh b m rfl, h]

theorem oneSpaced_collapseAux : ∀ (l : List Char) (b : Bool),
    oneSpaced (collapseAux b l) = true := by
  intro l
  induction l with
  | nil => intro b; rfl
  | cons c t ih =>
    intro b
    rw [collapseAux]
    by_cases hw : isPyWs c = true
    · rw [if_pos hw]
      cases b with
      | true => exact ih true
      | false =>
        rw [if_neg (by simp)]
        apply oneSpaced_cons (ih true)
        intro y m he
        have hy := noLead_collapseAux_true t
        rw [he, noLead] at hy
        simp [show isPyWs y = false from by simpa using hy]
    · rw [if_neg hw]
      apply oneSpaced_cons (ih false)
      intro y m _
      simp [show isPyWs c = false from by simpa using hw]

theorem allSpace_collapseAux : ∀ (l : List Char) (b : Bool) (c : Char),
    c ∈ collapseAux b l → isPyWs c = true → c = ' ' := by
  intro l
  induction l with
  | nil => intro b c h; simp [collapseAux] at h
  | cons a t ih =>
    intro b c h hc
    rw [collapseAux] at h
    by_cases hw : isPyWs a = true
    · rw [if_pos hw] at h
      cases b with
      | true => exact ih true c h hc
      | false =>
        rw [if_neg (by simp)] at h
        rcases List.mem_cons.mp h with h2 | h2
        · exact h2
        · exact ih true c h2 hc
    · rw [if_neg hw] at h
      rcases List.mem_cons.mp h with h2 | h2
      · subst h2; exact absurd hc (by simpa using hw)
      · exact ih false c h2 hc

theorem oneSpaced_map_up : ∀ l : List Char, oneSpaced l = true →
    oneSpaced (l.map pyUpperChar) = true := by
  intro l
  induction l with
  | nil => intro _; rfl
  | cons a t ih =>
    intro h
    cases t with
    | nil => rfl
    | cons b m =>
      rw [List.map_cons, List.map_cons, oneSpaced, pyUpperChar_ws, pyUpperChar_ws]
      have h1 := oneSpaced_cons_head h
      have h2 := ih (oneSpaced_tail h)
      rw [List.map_cons] at h2
      simp [h1, h2]

theorem oneSpaced_iff_chain : ∀ l : List Char, (oneSpaced l = true ↔
    List.Chain' (fun a b => ¬(isPyWs a = true ∧ isPyWs b = true)) l) := by
  intro l
  induction l with
  | nil => simp [oneSpaced]
  | cons a t ih =>
    cases t with
    | nil => simp [oneSpaced]
    | cons b m =>
      rw [oneSpaced, List.chain'_cons, Bool.and_eq_true, ← ih]
      constructor
      · intro ⟨h1, h2⟩
        refine ⟨?_, h2⟩
        intro ⟨ha, hb⟩
        simp [ha, hb] at h1
      · intro ⟨h1, h2⟩
        refine ⟨?_, h2⟩
        by_cases ha : isPyWs a = true
        · by_cases hb : isPyWs b = true
          · exact absurd ⟨ha, hb⟩ h1
          · simp [ha, show isPyWs b = false from by simpa using hb]
        · simp [show isPyWs a = false from by simpa using ha]

theorem oneSpaced_reverse (l : List Char) (h : oneSpaced l = true) :
    oneSpaced l.reverse = true := by
  rw [oneSpaced_iff_chain] at h ⊢
  rw [List.chain'_reverse]
  exact List.Chain'.imp (fun a b hab => fun ⟨hb, ha⟩ => hab ⟨ha, hb⟩) h

theorem oneSpaced_dropWhile (l : List Char) (h : oneSpaced l = true) :
    oneSpaced (l.dropWhile isPyWs) = true := by
  induction l with
  | nil => exact h
  | cons c t ih =>
    by_cases hw : isPyWs c = true
    · rw [List.dropWhile_cons, if_pos hw]
      exact ih (oneSpaced_tail h)
    · rw [List.dropWhile_cons, if_neg hw]
      exact h

theorem oneSpaced_stripChars (l : List Char) (h : oneSpaced l = true) :
    oneSpaced (stripChars l) = true := by
  rw [stripChars]
  exact oneSpaced_reverse _ (oneSpaced_dropWhile _ (oneSpaced_reverse _ (oneSpaced_dropWhile _ h)))

theorem collapseAux_eq_self : ∀ l : List Char,
    (∀ c ∈ l, isPyWs c = true → c = ' ') → oneSpaced l = true →
    (collapseAux false l = l ∧ (noLead l = true → collapseAux true l = l)) := by
  intro l
  induction l with
  | nil => intro _ _; exact ⟨rfl, fun _ => rfl⟩
  | cons c t ih =>
    intro hsp hos
    have hsp2 : ∀ d ∈ t, isPyWs d = true → d = ' ' :=
      fun d hd => hsp d (List.mem_cons_of_mem _ hd)
    obtain ⟨ih1, ih2⟩ := ih hsp2 (oneSpaced_tail hos)
    by_cases hw : isPyWs c = true
    · have hc : c = ' ' := hsp c (List.mem_cons_self _ _) hw
      constructor
      · rw [collapseAux, if_pos hw, if_neg (by simp)]
        cases t with
        | nil => simp [collapseAux, hc]
        | cons y ys =>
          have hy : isPyWs y = false := by
            have h1 := oneSpaced_cons_head hos
            simpa [hw] using h1
          rw [ih2 (by simp [noLead, hy]), hc]
      · intro hnl
        rw [noLead] at hnl
        simp [hw] at hnl
    · constructor
      · rw [collapseAux, if_neg hw, ih1]
      · intro _
        rw [collapseAux, if_neg hw, ih1]

theorem map_eq_self_of_fixed {l : List Char} {f : Char → Char} (h : ∀ c ∈ l, f c = c) :
    l.map f = l := by
  rw [List.map_congr_left h]
  simp

theorem fixed_of_mem_normChars {c : Char} {l : List Char} (h : c ∈ normChars l) :
    pyUpperChar c = c := by
  rw [normChars] at h
  have h1 := mem_stripChars h
  rw [removePunct] at h1
  have h2 := (List.mem_filter.mp h1).1
  obtain ⟨d, _, rfl⟩ := List.mem_map.mp h2
  exact pyUpperChar_idem d

theorem nonpunct_of_mem_normChars {c : Char} {l : List Char} (h : c ∈ normChars l) :
    isPunct c = false := by
  rw [normChars] at h
  have h1 := mem_stripChars h
  rw [removePunct] at h1
  have h2 := (List.mem_filter.mp h1).2
  simpa using h2

theorem noLead_normChars (l : List Char) : noLead (normChars l) = true := by
  rw [normChars]; exact noLead_stripChars _

theorem noTrail_normChars (l : List Char) : noTrail (normChars l) = true := by
  rw [normChars]; exact noTrail_stripChars _

theorem normChars_double (l : List Char) :
    normChars (normChars l) = collapseWs (normChars l) := by
  conv_lhs => rw [normChars]
  rw [stripChars_eq_self (noLead_normChars l) (noTrail_normChars l)]
  have hup : (collapseWs (normChars l)).map pyUpperChar = collapseWs (normChars l) :=
    map_eq_self_of_fixed (fun c hc => by
      rcases mem_collapseAux (normChars l) false c hc with rfl | hcm
      · exact pyUpperChar_space
      · exact fixed_of_mem_normChars hcm)
  rw [hup]
  have hrp : removePunct (collapseWs (normChars l)) = collapseWs (normChars l) := by
    rw [removePunct]
    apply List.filter_eq_self.mpr
    intro c hc
    rcases mem_collapseAux (normChars l) false c hc with rfl | hcm
    · decide
    · simp [nonpunct_of_mem_normChars hcm]
  rw [hrp]
  exact stripChars_eq_self (noLead_collapseAux_false (noLead_normChars l))
    (noTrail_collapseAux _ false (noTrail_normChars l))

theorem normalize_double (x : String) :
    normalize_company_name (normalize_company_name x) =
      collapseWsStr (normalize_company_name x) := by
  by_cases hx : x = ""
  · subst hx; rfl
  · have hx2 : normalize_company_name x = String.mk (normChars x.data) := by
      rw [normalize_company_name, if_neg hx]
    rw [hx2]
    by_cases hy : String.mk (normChars x.data) = ""
    · rw [hy]; rfl
    · rw [normalize_company_name, if_neg hy, collapseWsStr]
      show String.mk (normChars (normChars x.data)) = String.mk (collapseWs (normChars x.data))
      rw [normChars_double]

/-- C9 counterexample: normalization is not idempotent — removing the dot
of "A . B" after whitespace collapsing leaves the double space "A  B",
which a second normalization pass collapses further. -/
theorem c9_counterexample :
    normalize_company_name "A . B" = "A  B" ∧
    normalize_company_name (normalize_company_name "A . B") ≠
      normalize_company_name "A . B" :=
  ⟨by decide, by decide⟩

/-- C9 (amended): a second normalization pass collapses exactly the
whitespace runs created by punctuation removal —
`normalize (normalize x) = collapseWs (normalize x)` for every string, so
normalization is idempotent on every input with no punctuation characters
(and in particular is a pure function returning "" for empty input, with a
null input handled by the same guard). -/
theorem c9_normalize_idempotence_amended (x : String) :
    normalize_company_name (normalize_company_name x) =
      collapseWsStr (normalize_company_name x) ∧
    normalize_company_name "" = "" ∧
    ((∀ c ∈ x.data, isPunct c = false) →
      normalize_company_name (normalize_company_name x) = normalize_company_name x) := by
  refine ⟨normalize_double x, rfl, ?_⟩
  intro hp
  rw [normalize_double x]
  by_cases hx : x = ""
  · subst hx; rfl
  · have hmain : collapseWs (normChars x.data) = normChars x.data := by
      apply (collapseAux_eq_self (normChars x.data) ?hsp ?hos).1
      case hsp =>
        intro c hc hwc
        rw [normChars] at hc
        have h1 := mem_stripChars hc
        rw [removePunct] at h1
        have h2 := (List.mem_filter.mp h1).1
        obtain ⟨d, hd, rfl⟩ := List.mem_map.mp h2
        have hwd : isPyWs d = true := by rwa [pyUpperChar_ws] at hwc
        have hds : d = ' ' := allSpace_collapseAux (stripChars x.data) false d hd hwd
        rw [hds, pyUpperChar_space]
      case hos =>
        rw [normChars]
        apply oneSpaced_stripChars
        have hrp : removePunct ((collapseWs (stripChars x.data)).map pyUpperChar) =
            (collapseWs (stripChars x.data)).map pyUpperChar := by
          rw [removePunct]
          apply List.filter_eq_self.mpr
          intro c hc
          obtain ⟨d, hd, rfl⟩ := List.mem_map.mp hc
          rcases mem_collapseAux (stripChars x.data) false d hd with rfl | hdm
          · decide
          · simp [pyUpperChar_punct d (hp d (mem_stripChars hdm))]
        rw [hrp]
        exact oneSpaced_map_up _ (oneSpaced_collapseAux _ false)
    rw [normalize_company_name, if_neg hx, collapseWsStr]
    show String.mk (collapseWs (normChars x.data)) = String.mk (normChars x.data)
    rw [hmain]

/-- C9 witness: idempotence evaluated at a punctuation-free input with
leading, internal and trailing whitespace. -/
theorem c9_normalize_idempotence_witness :
    normalize_company_name (normalize_company_name " Acme  Corp ") =
      normalize_company_name " Acme  Corp " :=
  (c9_normalize_idempotence_amended " Acme  Corp ").2.2 (by decide)
